import Mathlib

/-!
Shallow embedding of the scoring core of the golf-lasvegas repository.

The Hole Resolver (`calculateHoleResult`, `calculateCurrentHoleRate`) is
translated from `src/utils/golfLogic.ts`; the Round Accumulator
(`completeHole` and the game-state transition) from `src/store/gameStore.ts`.

Modelling conventions:
* A TypeScript `Record<PlayerId, ScoreInput>` is an insertion-ordered
  association list `List (PlayerId × ScoreInput)`; `Object.values` is
  `List.map Prod.snd`, property read is `lookupKey`, and property
  assignment (`obj[k] = v`, which overwrites in place or appends a new key)
  is `setKey`.
* JavaScript numbers that the program only ever uses as non-negative
  integers (strokes, push counts, multipliers) are `Nat`; on `Nat`,
  truncated subtraction `m - 1` coincides with the source's
  `Math.max(0, m - 1)`.
* Point deltas can be negative and are `Int`.
-/

namespace GolfVegas

abbrev PlayerId := String

/-- Per-player, per-hole input: raw strokes, birdie flag, declared pushes. -/
structure ScoreInput where
  score : Nat
  isBirdie : Bool
  pushCount : Nat
deriving Repr, DecidableEq

/-- A JS `Record<PlayerId, ScoreInput>` as an insertion-ordered assoc list. -/
abbrev Scores := List (PlayerId × ScoreInput)

/-- Property read `scores[id]`; the default is only reached when the caller
contract (id present in `scores`) is violated, where the JS source would
produce `undefined`. -/
def lookupKey {β : Type} : List (PlayerId × β) → PlayerId → Option β
  | [], _ => none
  | q :: t, k => if q.1 = k then some q.2 else lookupKey t k

/-- Whether a record already has a property with the given key. -/
def hasKey {β : Type} (m : List (PlayerId × β)) (k : PlayerId) : Bool :=
  m.any (fun q => decide (q.1 = k))

def getScore (scores : Scores) (id : PlayerId) : ScoreInput :=
  (lookupKey scores id).getD ⟨0, false, 0⟩

/-- JS object property assignment `m[k] = v`: overwrite in place when the key
exists, append otherwise. -/
def setKey {β : Type} (m : List (PlayerId × β)) (k : PlayerId) (v : β) :
    List (PlayerId × β) :=
  if hasKey m k then
    m.map (fun q => if q.1 = k then (k, v) else q)
  else m ++ [(k, v)]

/-- Result of `getRawTeamScore` in the source: the concatenated value plus the
low and high strokes it was built from. -/
structure RawScore where
  val : Nat
  low : Nat
  high : Nat
deriving Repr, DecidableEq

/-- Raw team score: `min(s1, s2) * 10 + max(s1, s2)`. -/
def getRawTeamScore (scores : Scores) (p1Id p2Id : PlayerId) : RawScore :=
  let s1 := (getScore scores p1Id).score
  let s2 := (getScore scores p2Id).score
  let low := min s1 s2
  let high := max s1 s2
  ⟨low * 10 + high, low, high⟩

/-- Whether a team (given by its two member ids) has at least one birdie. -/
def hasBirdie (scores : Scores) (ids : PlayerId × PlayerId) : Bool :=
  (getScore scores ids.1).isBirdie || (getScore scores ids.2).isBirdie

/-- A team's final score: its raw score, digits reversed when the opposing
team has a birdie. -/
def finalTeamScore (scores : Scores) (myIds oppIds : PlayerId × PlayerId) : Nat :=
  let raw := getRawTeamScore scores myIds.1 myIds.2
  if hasBirdie scores oppIds then raw.high * 10 + raw.low else raw.val

/-- Sum of `pushCount` over all entries of the scores record
(`Object.values(scores)` accumulation in the source). -/
def totalPushCount (scores : Scores) : Nat :=
  (scores.map (fun s => s.2.pushCount)).sum

/-- Whether any entry of the scores record has `isBirdie`. -/
def hasAnyBirdie (scores : Scores) : Bool :=
  scores.any (fun s => s.2.isBirdie)

/-- The `count` of the rate computation: carry-over count
(`Math.max(0, m - 1)`, here `Nat` subtraction) plus total pushes plus the
birdie bonus. -/
def rateCount (currentCarryOverMultiplier : Nat) (scores : Scores) : Nat :=
  (currentCarryOverMultiplier - 1) + totalPushCount scores +
    (if hasAnyBirdie scores then 1 else 0)

/-- The applied rate: `1` when `count == 0`, else `count * 2`. -/
def finalRate (currentCarryOverMultiplier : Nat) (scores : Scores) : Nat :=
  if rateCount currentCarryOverMultiplier scores = 0 then 1
  else rateCount currentCarryOverMultiplier scores * 2

/-- Winner determination of step 3 of the source: the point difference
together with `some (winningTeamIds, losingTeamIds)`, or `(0, none)` on a
draw. -/
def holeOutcome (scores : Scores) (teamA_Ids teamB_Ids : PlayerId × PlayerId) :
    Nat × Option ((PlayerId × PlayerId) × (PlayerId × PlayerId)) :=
  let teamA_FinalScore := finalTeamScore scores teamA_Ids teamB_Ids
  let teamB_FinalScore := finalTeamScore scores teamB_Ids teamA_Ids
  if teamA_FinalScore < teamB_FinalScore then
    (teamB_FinalScore - teamA_FinalScore, some (teamA_Ids, teamB_Ids))
  else if teamB_FinalScore < teamA_FinalScore then
    (teamA_FinalScore - teamB_FinalScore, some (teamB_Ids, teamA_Ids))
  else (0, none)

/-- Step 5 of the source: initialize all four entries to `0`, then on a
non-draw overwrite the winners with `+finalPoints` and the losers with
`-finalPoints`. -/
def mkPointsResult (teamA_Ids teamB_Ids : PlayerId × PlayerId) (isDraw : Bool)
    (winLose : Option ((PlayerId × PlayerId) × (PlayerId × PlayerId)))
    (finalPoints : Int) : List (PlayerId × Int) :=
  let base :=
    setKey (setKey (setKey (setKey [] teamA_Ids.1 0) teamA_Ids.2 0) teamB_Ids.1 0)
      teamB_Ids.2 0
  match isDraw, winLose with
  | false, some (w, l) =>
      setKey (setKey (setKey (setKey base w.1 finalPoints) w.2 finalPoints)
        l.1 (-finalPoints)) l.2 (-finalPoints)
  | _, _ => base

/-- Immutable record of a resolved hole. -/
structure HoleResult where
  holeNumber : Nat
  par : Nat
  scores : Scores
  teamA_Ids : PlayerId × PlayerId
  teamB_Ids : PlayerId × PlayerId
  carryOverMultiplier : Nat
  isDraw : Bool
  appliedMultiplier : Nat
  pointsResult : List (PlayerId × Int)
  nextHoleMultiplier : Nat
deriving Repr, DecidableEq

/-- Parameter object of `calculateHoleResult`. -/
structure CalculateHoleResultParams where
  holeNumber : Nat
  par : Nat
  scores : Scores
  teamA_Ids : PlayerId × PlayerId
  teamB_Ids : PlayerId × PlayerId
  currentCarryOverMultiplier : Nat
deriving Repr, DecidableEq

/-- The Hole Resolver, translated from `calculateHoleResult` in
`src/utils/golfLogic.ts`. -/
def calculateHoleResult (params : CalculateHoleResultParams) : HoleResult :=
  let scores := params.scores
  let outcome := holeOutcome scores params.teamA_Ids params.teamB_Ids
  let diff := outcome.1
  let isDraw := outcome.2.isNone
  let finalRate := GolfVegas.finalRate params.currentCarryOverMultiplier scores
  let finalPoints : Int := (diff * finalRate : Nat)
  let pointsResult :=
    mkPointsResult params.teamA_Ids params.teamB_Ids isDraw outcome.2 finalPoints
  let nextMultiplier :=
    if isDraw then params.currentCarryOverMultiplier + 1 else 1
  { holeNumber := params.holeNumber
    par := params.par
    scores := params.scores
    teamA_Ids := params.teamA_Ids
    teamB_Ids := params.teamB_Ids
    carryOverMultiplier := params.currentCarryOverMultiplier
    isDraw := isDraw
    appliedMultiplier := finalRate
    pointsResult := pointsResult
    nextHoleMultiplier := nextMultiplier }

/-- Real-time rate display helper, translated from `calculateCurrentHoleRate`
in `src/utils/golfLogic.ts` (the source duplicates the rate computation of
`calculateHoleResult` inline). -/
def calculateCurrentHoleRate (currentCarryOverMultiplier : Nat)
    (scores : Scores) : Nat :=
  let carryOverCount := currentCarryOverMultiplier - 1
  let totalPushCount := (scores.map (fun s => s.2.pushCount)).sum
  let hasAnyBirdie := scores.any (fun s => s.2.isBirdie)
  let count := carryOverCount + totalPushCount + (if hasAnyBirdie then 1 else 0)
  if count = 0 then 1 else count * 2

/-! Round Accumulator: the game-state slice of `src/store/gameStore.ts` that
the `completeHole` action reads and writes. Fields of the store untouched by
`completeHole` (saved rounds archive) are not part of this slice. -/

/-- Per-player push quota bookkeeping, one counter per half. -/
structure PushUsage where
  front9 : Nat
  back9 : Nat
deriving Repr, DecidableEq

/-- A player of the round. -/
structure Player where
  id : PlayerId
  name : String
  pushUsageCount : PushUsage
deriving Repr, DecidableEq

/-- Game status values the store uses (`'playing' | 'finished'`). -/
inductive GameStatus where
  | playing
  | finished
deriving Repr, DecidableEq

/-- Match settings; `completeHole` reads `maxPushCountPerHalf`. -/
structure Settings where
  rate : Nat
  maxPushCountPerHalf : Nat
  language : String
  matchName : String
deriving Repr, DecidableEq

/-- The store state read and written by `completeHole`. -/
structure GameState where
  players : List Player
  currentHole : Nat
  gameStatus : GameStatus
  history : List HoleResult
  settings : Settings
  nextHoleMultiplier : Nat
deriving Repr, DecidableEq

/-- Input object of the `completeHole` action. -/
structure CompleteHoleInput where
  par : Nat
  scores : Scores
  teamA_Ids : PlayerId × PlayerId
  teamB_Ids : PlayerId × PlayerId
  holeNumber : Nat
deriving Repr, DecidableEq

/-- The half counter the hole-9/18 forced-push override reads:
`front9` when `holeNumber === 9`, else `back9`. -/
def usedInHalf (holeNumber : Nat) (p : Player) : Nat :=
  if holeNumber = 9 then p.pushUsageCount.front9 else p.pushUsageCount.back9

/-- One iteration of the forced-push loop: when the player still has
remaining quota (`Math.max(0, maxPush - usedInHalf) > 0`, here `Nat`
subtraction), overwrite that player's entry with the full remaining quota
(`finalScores[p.id] = { ...finalScores[p.id], pushCount: remaining }`). -/
def forcePushStep (maxPush holeNumber : Nat) (sc : Scores) (p : Player) : Scores :=
  let remaining := maxPush - usedInHalf holeNumber p
  if remaining > 0 then
    setKey sc p.id { getScore sc p.id with pushCount := remaining }
  else sc

/-- The pre-resolution transform of `completeHole`: on holes 9 and 18 force
each player's remaining push quota into the submitted scores; on every other
hole the scores pass through unchanged. -/
def applyForcedPush (players : List Player) (maxPush holeNumber : Nat)
    (scores : Scores) : Scores :=
  if holeNumber = 9 ∨ holeNumber = 18 then
    players.foldl (forcePushStep maxPush holeNumber) scores
  else scores

/-- The effective push count `finalScores[p.id]?.pushCount || 0` read back for
usage bookkeeping. -/
def effectivePush (sc : Scores) (id : PlayerId) : Nat :=
  ((lookupKey sc id).map (fun s => s.pushCount)).getD 0

/-- Push-usage bookkeeping: a player whose effective push count is positive
has the counter of the hole's half (`front9` for holes ≤ 9, `back9`
otherwise) incremented by it. -/
def updatePlayerUsage (sc : Scores) (holeNumber : Nat) (p : Player) : Player :=
  let usedPushCount := effectivePush sc p.id
  if usedPushCount > 0 then
    let isFront9 := holeNumber ≤ 9
    { p with pushUsageCount :=
        { front9 := if isFront9 then p.pushUsageCount.front9 + usedPushCount
            else p.pushUsageCount.front9
          back9 := if ¬ isFront9 then p.pushUsageCount.back9 + usedPushCount
            else p.pushUsageCount.back9 } }
  else p

/-- The `HoleResult` that `completeHole` computes: the Hole Resolver applied
to the post-override scores with the store's pending carry-over multiplier. -/
def resolvedResult (state : GameState) (input : CompleteHoleInput) : HoleResult :=
  calculateHoleResult
    { holeNumber := input.holeNumber
      par := input.par
      scores := applyForcedPush state.players state.settings.maxPushCountPerHalf
        input.holeNumber input.scores
      teamA_Ids := input.teamA_Ids
      teamB_Ids := input.teamB_Ids
      currentCarryOverMultiplier := state.nextHoleMultiplier }

/-- The `completeHole` action of the store, translated from
`src/store/gameStore.ts`: forced-push override, hole resolution, push-usage
update, history upsert (replace in place when the hole number exists,
otherwise append and sort by hole number), cursor advance (capped at 18),
status transition, and carry-over multiplier update. -/
def completeHole (state : GameState) (input : CompleteHoleInput) : GameState :=
  let finalScores := applyForcedPush state.players
    state.settings.maxPushCountPerHalf input.holeNumber input.scores
  let result := resolvedResult state input
  let updatedPlayers :=
    state.players.map (updatePlayerUsage finalScores input.holeNumber)
  let newHistory :=
    match state.history.findIdx? (fun h => decide (h.holeNumber = input.holeNumber)) with
    | some existingIndex => state.history.set existingIndex result
    | none =>
        (state.history ++ [result]).mergeSort
          (fun a b => a.holeNumber ≤ b.holeNumber)
  let nextCurrentHole := if input.holeNumber ≥ 18 then 18 else input.holeNumber + 1
  let nextStatus :=
    if input.holeNumber ≥ 18 then GameStatus.finished else state.gameStatus
  { state with
    history := newHistory
    players := updatedPlayers
    currentHole := nextCurrentHole
    gameStatus := nextStatus
    nextHoleMultiplier := result.nextHoleMultiplier }

/-- A sequence of `completeHole` calls. -/
def runHoles (state : GameState) (inputs : List CompleteHoleInput) : GameState :=
  inputs.foldl completeHole state

/-! Claim-level auxiliary definitions. -/

/-- The inputs of one hole without the carry-over multiplier, used to thread a
multiplier through consecutive calls of the Hole Resolver. -/
structure HoleSetup where
  holeNumber : Nat
  par : Nat
  scores : Scores
  teamA_Ids : PlayerId × PlayerId
  teamB_Ids : PlayerId × PlayerId
deriving Repr, DecidableEq

/-- Attach a carry-over multiplier to a hole setup. -/
def HoleSetup.toParams (h : HoleSetup) (m : Nat) : CalculateHoleResultParams :=
  ⟨h.holeNumber, h.par, h.scores, h.teamA_Ids, h.teamB_Ids, m⟩

/-- Feed each hole's `nextHoleMultiplier` into the next call of the Hole
Resolver, returning the multiplier pending after the last hole. -/
def threadMultiplier (m : Nat) : List HoleSetup → Nat
  | [] => m
  | h :: t => threadMultiplier (calculateHoleResult (h.toParams m)).nextHoleMultiplier t

/-- The half counter charged by the bookkeeping of `completeHole`:
`front9` for holes 1–9, `back9` for holes 10 and up. -/
def halfUsage (holeNumber : Nat) (p : Player) : Nat :=
  if holeNumber ≤ 9 then p.pushUsageCount.front9 else p.pushUsageCount.back9

/-- Both push counters of every player are within the per-half limit. -/
def playersWithinLimit (s : GameState) : Bool :=
  s.players.all (fun p =>
    decide (p.pushUsageCount.front9 ≤ s.settings.maxPushCountPerHalf) &&
    decide (p.pushUsageCount.back9 ≤ s.settings.maxPushCountPerHalf))

/-- A `completeHole` input whose submitted push counts are each at most the
player's remaining quota in the hole's half. -/
def validStep (s : GameState) (input : CompleteHoleInput) : Bool :=
  s.players.all (fun p =>
    decide (effectivePush input.scores p.id ≤
      s.settings.maxPushCountPerHalf - halfUsage input.holeNumber p))

/-- A sequence of `completeHole` inputs, each valid in the state it is applied
to. -/
def validSeq (s : GameState) : List CompleteHoleInput → Bool
  | [] => true
  | i :: rest => validStep s i && validSeq (completeHole s i) rest

/-- Pointwise comparison of player rosters: same ids in the same order and
push counters that have not decreased. -/
def playersMonotone : List Player → List Player → Bool
  | [], [] => true
  | p :: ps, q :: qs =>
      decide (p.id = q.id) &&
      decide (p.pushUsageCount.front9 ≤ q.pushUsageCount.front9) &&
      decide (p.pushUsageCount.back9 ≤ q.pushUsageCount.back9) &&
      playersMonotone ps qs
  | [], _ :: _ => false
  | _ :: _, [] => false

/-! Concrete fixtures used to instantiate the theorems below. -/

def exScoresAWin : Scores :=
  [("p1", ⟨4, false, 0⟩), ("p2", ⟨5, false, 0⟩),
   ("p3", ⟨5, false, 0⟩), ("p4", ⟨6, false, 0⟩)]

def exParamsAWin : CalculateHoleResultParams :=
  ⟨1, 4, exScoresAWin, ("p1", "p2"), ("p3", "p4"), 1⟩

def exScoresDraw : Scores :=
  [("p1", ⟨4, false, 0⟩), ("p2", ⟨5, false, 0⟩),
   ("p3", ⟨4, false, 0⟩), ("p4", ⟨5, false, 0⟩)]

def exSetupDraw : HoleSetup := ⟨1, 4, exScoresDraw, ("p1", "p2"), ("p3", "p4")⟩

def exPlayers : List Player :=
  [⟨"p1", "Player A", ⟨1, 0⟩⟩, ⟨"p2", "Player B", ⟨2, 0⟩⟩,
   ⟨"p3", "Player C", ⟨0, 0⟩⟩, ⟨"p4", "Player D", ⟨0, 0⟩⟩]

def exSettings : Settings := ⟨10, 2, "ja", ""⟩

def exState : GameState := ⟨exPlayers, 9, .playing, [], exSettings, 1⟩

def exInput9 : CompleteHoleInput := ⟨4, exScoresAWin, ("p1", "p2"), ("p3", "p4"), 9⟩

def exInput5 : CompleteHoleInput := ⟨4, exScoresAWin, ("p1", "p2"), ("p3", "p4"), 5⟩

def exInput18 : CompleteHoleInput := ⟨4, exScoresAWin, ("p1", "p2"), ("p3", "p4"), 18⟩

def exStateH : GameState :=
  ⟨exPlayers, 6, .playing, [calculateHoleResult exParamsAWin], exSettings, 1⟩

def exInput1 : CompleteHoleInput := ⟨4, exScoresDraw, ("p1", "p2"), ("p3", "p4"), 1⟩

/-! Helper lemmas about the JS-record operations. -/

theorem lookupKey_map_overwrite {β : Type} (m : List (PlayerId × β)) (k : PlayerId)
    (v : β) (h : hasKey m k = true) :
    lookupKey (m.map (fun q => if q.1 = k then (k, v) else q)) k = some v := by
  induction m with
  | nil => simp [hasKey] at h
  | cons a t ih =>
    by_cases hak : a.1 = k
    · simp [lookupKey, hak]
    · simp only [hasKey, List.any_cons, Bool.or_eq_true, decide_eq_true_eq] at h
      have ht : hasKey t k = true := by
        rcases h with h | h
        · exact absurd h hak
        · simpa [hasKey] using h
      simp [lookupKey, hak, ih ht]

theorem lookupKey_map_overwrite_ne {β : Type} (m : List (PlayerId × β))
    (k k' : PlayerId) (v : β) (h : k' ≠ k) :
    lookupKey (m.map (fun q => if q.1 = k then (k, v) else q)) k' = lookupKey m k' := by
  induction m with
  | nil => simp
  | cons a t ih =>
    by_cases hak : a.1 = k
    · simp only [List.map_cons, if_pos hak]
      have h1 : ¬ k = k' := fun hx => h hx.symm
      have h2 : ¬ a.1 = k' := by rw [hak]; exact h1
      simp [lookupKey, h1, h2, ih]
    · simp only [List.map_cons, if_neg hak]
      by_cases hak' : a.1 = k'
      · simp [lookupKey, hak']
      · simp [lookupKey, hak', ih]

theorem lookupKey_append_single {β : Type} (m : List (PlayerId × β))
    (k : PlayerId) (v : β) (h : hasKey m k = false) :
    lookupKey (m ++ [(k, v)]) k = some v := by
  induction m with
  | nil => simp [lookupKey]
  | cons a t ih =>
    simp only [hasKey, List.any_cons, Bool.or_eq_false_iff,
      decide_eq_false_iff_not] at h
    have ht : hasKey t k = false := by simpa [hasKey] using h.2
    simp [lookupKey, h.1, ih ht]

theorem lookupKey_append_single_ne {β : Type} (m : List (PlayerId × β))
    (k k' : PlayerId) (v : β) (h : k' ≠ k) :
    lookupKey (m ++ [(k, v)]) k' = lookupKey m k' := by
  induction m with
  | nil =>
    have : ¬ k = k' := fun hx => h hx.symm
    simp [lookupKey, this]
  | cons a t ih =>
    by_cases hak : a.1 = k'
    · simp [lookupKey, hak]
    · simp [lookupKey, hak, ih]

theorem lookupKey_setKey_self {β : Type} (m : List (PlayerId × β)) (k : PlayerId)
    (v : β) : lookupKey (setKey m k v) k = some v := by
  unfold setKey
  by_cases h : hasKey m k = true
  · simp only [h, if_true]
    exact lookupKey_map_overwrite m k v h
  · simp only [Bool.not_eq_true] at h
    simp only [h, Bool.false_eq_true, if_false]
    exact lookupKey_append_single m k v h

theorem lookupKey_setKey_ne {β : Type} (m : List (PlayerId × β)) (k k' : PlayerId)
    (v : β) (h : k' ≠ k) : lookupKey (setKey m k v) k' = lookupKey m k' := by
  unfold setKey
  by_cases hm : hasKey m k = true
  · simp only [hm, if_true]
    exact lookupKey_map_overwrite_ne m k k' v h
  · simp only [Bool.not_eq_true] at hm
    simp only [hm, Bool.false_eq_true, if_false]
    exact lookupKey_append_single_ne m k k' v h

theorem lookupKey_append_single_apart {β : Type} (m : List (PlayerId × β))
    (k : PlayerId) (v : β) (h : hasKey m k = false) :
    lookupKey m k = none := by
  induction m with
  | nil => rfl
  | cons a t ih =>
    simp only [hasKey, List.any_cons, Bool.or_eq_false_iff, decide_eq_false_iff_not] at h
    have ht : hasKey t k = false := by simpa [hasKey] using h.2
    simp [lookupKey, h.1, ih ht]

/-- A permutation of an association list with duplicate-free keys preserves
lookups. -/
theorem lookupKey_eq_of_perm {β : Type} {l l' : List (PlayerId × β)}
    (h : l.Perm l') (nd : (l'.map Prod.fst).Nodup) (k : PlayerId) :
    lookupKey l k = lookupKey l' k := by
  induction h with
  | nil => rfl
  | cons x h ih =>
    rw [List.map_cons] at nd
    have nd' : _ := nd.of_cons
    by_cases hx : x.1 = k
    · simp [lookupKey, hx]
    · simp [lookupKey, hx, ih nd']
  | swap x y t =>
    rw [List.map_cons, List.map_cons] at nd
    have hxy : x.1 ≠ y.1 := by
      have hnotmem := (List.nodup_cons.mp nd).1
      intro hx
      exact hnotmem (by rw [hx]; exact List.mem_cons_self _ _)
    by_cases hxk : x.1 = k
    · have hyk : ¬ y.1 = k := fun hy => hxy (hxk.trans hy.symm)
      simp [lookupKey, hxk, hyk]
    · by_cases hyk : y.1 = k
      · simp [lookupKey, hxk, hyk]
      · simp [lookupKey, hxk, hyk]
  | trans h1 h2 ih1 ih2 =>
    have ndmid : _ := ((h2.map Prod.fst).nodup_iff).mpr nd
    exact (ih1 ndmid).trans (ih2 nd)

/-- A permutation preserves `List.any`. -/
theorem any_eq_of_perm {α : Type} {l l' : List α} (h : l.Perm l')
    (p : α → Bool) : l.any p = l'.any p := by
  rw [Bool.eq_iff_iff]
  simp only [List.any_eq_true]
  exact ⟨fun ⟨x, hx, hp⟩ => ⟨x, h.mem_iff.mp hx, hp⟩,
    fun ⟨x, hx, hp⟩ => ⟨x, h.mem_iff.mpr hx, hp⟩⟩

/-! Claim theorems. -/

/-- C9: the live rate shown before submitting a hole always equals the
multiplier actually applied when the hole is finalized: for every carry-over
multiplier and scores record, `calculateCurrentHoleRate` equals the
`appliedMultiplier` field of the `HoleResult` that `calculateHoleResult`
returns for the same scores and multiplier. -/
theorem liveRate_eq_appliedMultiplier (params : CalculateHoleResultParams) :
    calculateCurrentHoleRate params.currentCarryOverMultiplier params.scores =
      (calculateHoleResult params).appliedMultiplier := rfl

/-- C10: every `completeHole` call sets `currentHole` to `holeNumber + 1`
capped at 18, and overwrites the store's pending `nextHoleMultiplier` with the
just-resolved hole's outcome: the pending multiplier plus one on a draw, one
otherwise. -/
theorem completeHole_cursor_and_multiplier (s : GameState)
    (input : CompleteHoleInput) :
    (completeHole s input).currentHole = min (input.holeNumber + 1) 18 ∧
    (completeHole s input).nextHoleMultiplier =
      (if (resolvedResult s input).isDraw then s.nextHoleMultiplier + 1 else 1) := by
  constructor
  · show (if input.holeNumber ≥ 18 then 18 else input.holeNumber + 1) = _
    split <;> omega
  · rfl

/-- C8: completing hole 18 sets the status to finished and pins the cursor at
18; completing any hole 1–17 advances the cursor to the next hole and keeps a
playing status playing. -/
theorem completeHole_finish_transition (s : GameState)
    (input : CompleteHoleInput) :
    (input.holeNumber = 18 →
      (completeHole s input).gameStatus = GameStatus.finished ∧
      (completeHole s input).currentHole = 18) ∧
    (1 ≤ input.holeNumber → input.holeNumber ≤ 17 →
      (completeHole s input).currentHole = input.holeNumber + 1 ∧
      (s.gameStatus = GameStatus.playing →
        (completeHole s input).gameStatus = GameStatus.playing)) := by
  refine ⟨fun h18 => ⟨?_, ?_⟩, fun h1 h17 => ⟨?_, fun hplay => ?_⟩⟩
  · show (if input.holeNumber ≥ 18 then GameStatus.finished else s.gameStatus) = _
    rw [if_pos (by omega)]
  · show (if input.holeNumber ≥ 18 then 18 else input.holeNumber + 1) = 18
    rw [if_pos (by omega)]
  · show (if input.holeNumber ≥ 18 then 18 else input.holeNumber + 1) = _
    rw [if_neg (by omega)]
  · show (if input.holeNumber ≥ 18 then GameStatus.finished else s.gameStatus) = _
    rw [if_neg (by omega), hplay]

/-- A drawn hole is detected independently of the carry-over multiplier, and
escalates the incoming multiplier by one. -/
theorem nextHoleMultiplier_of_draw (h : HoleSetup) (m : Nat)
    (hd : (holeOutcome h.scores h.teamA_Ids h.teamB_Ids).2 = none) :
    (calculateHoleResult (h.toParams m)).nextHoleMultiplier = m + 1 := by
  show (if (holeOutcome h.scores h.teamA_Ids h.teamB_Ids).2.isNone then m + 1 else 1) = m + 1
  rw [hd]
  rfl

/-- Threading the output multiplier of each drawn hole into the next call adds
one per hole. -/
theorem threadMultiplier_of_draws (hs : List HoleSetup) (M : Nat)
    (hdraws : ∀ h ∈ hs, (holeOutcome h.scores h.teamA_Ids h.teamB_Ids).2 = none) :
    threadMultiplier M hs = M + hs.length := by
  induction hs generalizing M with
  | nil => simp [threadMultiplier]
  | cons h t ih =>
    rw [threadMultiplier, nextHoleMultiplier_of_draw h M (hdraws h (by simp)),
      ih (M + 1) (fun x hx => hdraws x (List.mem_cons_of_mem h hx))]
    simp only [List.length_cons]
    omega

/-- C4: `calculateHoleResult` escalates the multiplier to `carryOver + 1`
exactly on a draw and resets it to 1 otherwise; consequently, threading the
returned multiplier through N ≥ 1 consecutive drawn holes starting from
multiplier M ≥ 1 yields M + N, and the carry-over count entering the following
hole is M + N − 1. -/
theorem carryOver_escalation (params : CalculateHoleResultParams)
    (hs : List HoleSetup) (M : Nat) (hM : 1 ≤ M) (hN : 1 ≤ hs.length)
    (hdraws : ∀ h ∈ hs, (holeOutcome h.scores h.teamA_Ids h.teamB_Ids).2 = none) :
    (calculateHoleResult params).nextHoleMultiplier =
      (if (calculateHoleResult params).isDraw then
        params.currentCarryOverMultiplier + 1 else 1) ∧
    threadMultiplier M hs = M + hs.length ∧
    threadMultiplier M hs - 1 = M + hs.length - 1 := by
  refine ⟨rfl, threadMultiplier_of_draws hs M hdraws, ?_⟩
  rw [threadMultiplier_of_draws hs M hdraws]

/-- On a draw the points record is the zero-initialized one. -/
theorem mkPointsResult_draw (a1 a2 b1 b2 : PlayerId) (fp : Int)
    (winLose : Option ((PlayerId × PlayerId) × (PlayerId × PlayerId)))
    (h12 : a1 ≠ a2) (h13 : a1 ≠ b1) (h14 : a1 ≠ b2)
    (h23 : a2 ≠ b1) (h24 : a2 ≠ b2) (h34 : b1 ≠ b2) :
    mkPointsResult (a1, a2) (b1, b2) true winLose fp =
      [(a1, 0), (a2, 0), (b1, 0), (b2, 0)] := by
  simp [mkPointsResult, setKey, hasKey, h12, h13, h14, h23, h24, h34,
    Ne.symm h12, Ne.symm h13, Ne.symm h14, Ne.symm h23, Ne.symm h24, Ne.symm h34]

/-- When team A wins, its members are overwritten with `+fp` and team B's with
`-fp`. -/
theorem mkPointsResult_winA (a1 a2 b1 b2 : PlayerId) (fp : Int)
    (h12 : a1 ≠ a2) (h13 : a1 ≠ b1) (h14 : a1 ≠ b2)
    (h23 : a2 ≠ b1) (h24 : a2 ≠ b2) (h34 : b1 ≠ b2) :
    mkPointsResult (a1, a2) (b1, b2) false (some ((a1, a2), (b1, b2))) fp =
      [(a1, fp), (a2, fp), (b1, -fp), (b2, -fp)] := by
  simp [mkPointsResult, setKey, hasKey, h12, h13, h14, h23, h24, h34,
    Ne.symm h12, Ne.symm h13, Ne.symm h14, Ne.symm h23, Ne.symm h24, Ne.symm h34]

/-- When team B wins, its members are overwritten with `+fp` and team A's with
`-fp`. -/
theorem mkPointsResult_winB (a1 a2 b1 b2 : PlayerId) (fp : Int)
    (h12 : a1 ≠ a2) (h13 : a1 ≠ b1) (h14 : a1 ≠ b2)
    (h23 : a2 ≠ b1) (h24 : a2 ≠ b2) (h34 : b1 ≠ b2) :
    mkPointsResult (a1, a2) (b1, b2) false (some ((b1, b2), (a1, a2))) fp =
      [(a1, -fp), (a2, -fp), (b1, fp), (b2, fp)] := by
  simp [mkPointsResult, setKey, hasKey, h12, h13, h14, h23, h24, h34,
    Ne.symm h12, Ne.symm h13, Ne.symm h14, Ne.symm h23, Ne.symm h24, Ne.symm h34]

/-- Reading a scores record that holds exactly four distinct player entries,
in any insertion order. -/
theorem scores_foursome (sc : Scores) (a1 a2 b1 b2 : PlayerId)
    (sa1 sa2 sb1 sb2 : ScoreInput)
    (h12 : a1 ≠ a2) (h13 : a1 ≠ b1) (h14 : a1 ≠ b2)
    (h23 : a2 ≠ b1) (h24 : a2 ≠ b2) (h34 : b1 ≠ b2)
    (hperm : sc.Perm [(a1, sa1), (a2, sa2), (b1, sb1), (b2, sb2)]) :
    getScore sc a1 = sa1 ∧ getScore sc a2 = sa2 ∧ getScore sc b1 = sb1 ∧
    getScore sc b2 = sb2 ∧
    totalPushCount sc =
      sa1.pushCount + sa2.pushCount + sb1.pushCount + sb2.pushCount ∧
    hasAnyBirdie sc =
      (sa1.isBirdie || sa2.isBirdie || sb1.isBirdie || sb2.isBirdie) := by
  have nd : (([(a1, sa1), (a2, sa2), (b1, sb1), (b2, sb2)]).map Prod.fst).Nodup := by
    simp [h12, h13, h14, h23, h24, h34]
  refine ⟨?_, ?_, ?_, ?_, ?_, ?_⟩
  · rw [getScore, lookupKey_eq_of_perm hperm nd]
    simp [lookupKey]
  · rw [getScore, lookupKey_eq_of_perm hperm nd]
    simp [lookupKey, h12]
  · rw [getScore, lookupKey_eq_of_perm hperm nd]
    simp [lookupKey, h13, h23]
  · rw [getScore, lookupKey_eq_of_perm hperm nd]
    simp [lookupKey, h14, h24, h34]
  · rw [totalPushCount, (hperm.map (fun s => s.2.pushCount)).sum_eq]
    simp [Nat.add_assoc]
  · rw [hasAnyBirdie, any_eq_of_perm hperm]
    simp [Bool.or_assoc]

/-- Unfolding lemma: the `appliedMultiplier` field of the Hole Resolver. -/
theorem calculateHoleResult_appliedMultiplier (params : CalculateHoleResultParams) :
    (calculateHoleResult params).appliedMultiplier =
      finalRate params.currentCarryOverMultiplier params.scores := rfl

/-- Unfolding lemma: the `isDraw` field of the Hole Resolver. -/
theorem calculateHoleResult_isDraw (params : CalculateHoleResultParams) :
    (calculateHoleResult params).isDraw =
      (holeOutcome params.scores params.teamA_Ids params.teamB_Ids).2.isNone := rfl

/-- Unfolding lemma: the `pointsResult` field of the Hole Resolver. -/
theorem calculateHoleResult_pointsResult (params : CalculateHoleResultParams) :
    (calculateHoleResult params).pointsResult =
      mkPointsResult params.teamA_Ids params.teamB_Ids
        (holeOutcome params.scores params.teamA_Ids params.teamB_Ids).2.isNone
        (holeOutcome params.scores params.teamA_Ids params.teamB_Ids).2
        (((holeOutcome params.scores params.teamA_Ids params.teamB_Ids).1 *
          finalRate params.currentCarryOverMultiplier params.scores : Nat)) := rfl

/-- C1: for a call of `calculateHoleResult` on four players (disjoint teams
whose ids are exactly the keys of the scores record, carry-over multiplier at
least 1), the applied multiplier is 1 when the count
`max(0, carryOver − 1) + total pushes + birdie bonus` is zero and twice the
count otherwise; the winning team members each receive
`diff · appliedMultiplier` points, the losing team members its negation, and
on a draw all four entries are 0. -/
theorem holeResult_rate_and_points (params : CalculateHoleResultParams)
    (a1 a2 b1 b2 : PlayerId) (sa1 sa2 sb1 sb2 : ScoreInput)
    (hA : params.teamA_Ids = (a1, a2)) (hB : params.teamB_Ids = (b1, b2))
    (h12 : a1 ≠ a2) (h13 : a1 ≠ b1) (h14 : a1 ≠ b2)
    (h23 : a2 ≠ b1) (h24 : a2 ≠ b2) (h34 : b1 ≠ b2)
    (hperm : params.scores.Perm [(a1, sa1), (a2, sa2), (b1, sb1), (b2, sb2)])
    (hm : 1 ≤ params.currentCarryOverMultiplier) :
    (calculateHoleResult params).appliedMultiplier =
      (if max 0 (params.currentCarryOverMultiplier - 1) +
          (sa1.pushCount + sa2.pushCount + sb1.pushCount + sb2.pushCount) +
          (if sa1.isBirdie || sa2.isBirdie || sb1.isBirdie || sb2.isBirdie
            then 1 else 0) = 0
        then 1
        else (max 0 (params.currentCarryOverMultiplier - 1) +
          (sa1.pushCount + sa2.pushCount + sb1.pushCount + sb2.pushCount) +
          (if sa1.isBirdie || sa2.isBirdie || sb1.isBirdie || sb2.isBirdie
            then 1 else 0)) * 2) ∧
    (finalTeamScore params.scores (a1, a2) (b1, b2) <
        finalTeamScore params.scores (b1, b2) (a1, a2) →
      (calculateHoleResult params).pointsResult =
        [(a1, (((finalTeamScore params.scores (b1, b2) (a1, a2) -
                 finalTeamScore params.scores (a1, a2) (b1, b2)) *
                (calculateHoleResult params).appliedMultiplier : Nat) : Int)),
         (a2, (((finalTeamScore params.scores (b1, b2) (a1, a2) -
                 finalTeamScore params.scores (a1, a2) (b1, b2)) *
                (calculateHoleResult params).appliedMultiplier : Nat) : Int)),
         (b1, -(((finalTeamScore params.scores (b1, b2) (a1, a2) -
                  finalTeamScore params.scores (a1, a2) (b1, b2)) *
                 (calculateHoleResult params).appliedMultiplier : Nat) : Int)),
         (b2, -(((finalTeamScore params.scores (b1, b2) (a1, a2) -
                  finalTeamScore params.scores (a1, a2) (b1, b2)) *
                 (calculateHoleResult params).appliedMultiplier : Nat) : Int))]) ∧
    (finalTeamScore params.scores (b1, b2) (a1, a2) <
        finalTeamScore params.scores (a1, a2) (b1, b2) →
      (calculateHoleResult params).pointsResult =
        [(a1, -(((finalTeamScore params.scores (a1, a2) (b1, b2) -
                  finalTeamScore params.scores (b1, b2) (a1, a2)) *
                 (calculateHoleResult params).appliedMultiplier : Nat) : Int)),
         (a2, -(((finalTeamScore params.scores (a1, a2) (b1, b2) -
                  finalTeamScore params.scores (b1, b2) (a1, a2)) *
                 (calculateHoleResult params).appliedMultiplier : Nat) : Int)),
         (b1, (((finalTeamScore params.scores (a1, a2) (b1, b2) -
                 finalTeamScore params.scores (b1, b2) (a1, a2)) *
                (calculateHoleResult params).appliedMultiplier : Nat) : Int)),
         (b2, (((finalTeamScore params.scores (a1, a2) (b1, b2) -
                 finalTeamScore params.scores (b1, b2) (a1, a2)) *
                (calculateHoleResult params).appliedMultiplier : Nat) : Int))]) ∧
    (finalTeamScore params.scores (a1, a2) (b1, b2) =
        finalTeamScore params.scores (b1, b2) (a1, a2) →
      (calculateHoleResult params).pointsResult =
        [(a1, 0), (a2, 0), (b1, 0), (b2, 0)]) := by
  obtain ⟨g1, g2, g3, g4, hpush, hbird⟩ :=
    scores_foursome params.scores a1 a2 b1 b2 sa1 sa2 sb1 sb2
      h12 h13 h14 h23 h24 h34 hperm
  refine ⟨?_, ?_, ?_, ?_⟩
  · rw [calculateHoleResult_appliedMultiplier]
    simp only [finalRate, rateCount, hpush, hbird, Nat.zero_max]
  · intro hlt
    have houtcome : holeOutcome params.scores params.teamA_Ids params.teamB_Ids =
        (finalTeamScore params.scores (b1, b2) (a1, a2) -
          finalTeamScore params.scores (a1, a2) (b1, b2),
         some ((a1, a2), (b1, b2))) := by
      rw [hA, hB]
      simp only [holeOutcome]
      rw [if_pos hlt]
    rw [calculateHoleResult_pointsResult, calculateHoleResult_appliedMultiplier,
      houtcome, hA, hB]
    simp only [Option.isNone_some]
    exact mkPointsResult_winA a1 a2 b1 b2 _ h12 h13 h14 h23 h24 h34
  · intro hlt
    have houtcome : holeOutcome params.scores params.teamA_Ids params.teamB_Ids =
        (finalTeamScore params.scores (a1, a2) (b1, b2) -
          finalTeamScore params.scores (b1, b2) (a1, a2),
         some ((b1, b2), (a1, a2))) := by
      rw [hA, hB]
      simp only [holeOutcome]
      rw [if_neg (by omega), if_pos hlt]
    rw [calculateHoleResult_pointsResult, calculateHoleResult_appliedMultiplier,
      houtcome, hA, hB]
    simp only [Option.isNone_some]
    exact mkPointsResult_winB a1 a2 b1 b2 _ h12 h13 h14 h23 h24 h34
  · intro heq
    have houtcome : holeOutcome params.scores params.teamA_Ids params.teamB_Ids =
        (0, none) := by
      rw [hA, hB]
      simp only [holeOutcome]
      rw [if_neg (by omega), if_neg (by omega)]
    rw [calculateHoleResult_pointsResult, houtcome, hA, hB]
    simp only [Option.isNone_none]
    exact mkPointsResult_draw a1 a2 b1 b2 _ _ h12 h13 h14 h23 h24 h34

/-- Witness for C1 on the concrete hole A:(4,5) vs B:(5,6), no birdies, no
pushes, multiplier 1. -/
theorem holeResult_rate_and_points_witness :
    (calculateHoleResult exParamsAWin).appliedMultiplier = 1 ∧
    (calculateHoleResult exParamsAWin).pointsResult =
      [("p1", 11), ("p2", 11), ("p3", -11), ("p4", -11)] := by
  have h := holeResult_rate_and_points exParamsAWin "p1" "p2" "p3" "p4"
    ⟨4, false, 0⟩ ⟨5, false, 0⟩ ⟨5, false, 0⟩ ⟨6, false, 0⟩
    rfl rfl (by decide) (by decide) (by decide) (by decide) (by decide) (by decide)
    (by decide) (by decide)
  refine ⟨?_, ?_⟩
  · rw [h.1]
    decide
  · rw [h.2.1 (by decide)]
    decide

/-- C2: when the scores record holds exactly the four ids of the two disjoint
teams, `pointsResult` is defined exactly on those four ids and its four values
sum to zero, both on a win and on a draw. -/
theorem holeResult_zero_sum (params : CalculateHoleResultParams)
    (a1 a2 b1 b2 : PlayerId) (sa1 sa2 sb1 sb2 : ScoreInput)
    (hA : params.teamA_Ids = (a1, a2)) (hB : params.teamB_Ids = (b1, b2))
    (h12 : a1 ≠ a2) (h13 : a1 ≠ b1) (h14 : a1 ≠ b2)
    (h23 : a2 ≠ b1) (h24 : a2 ≠ b2) (h34 : b1 ≠ b2)
    (hperm : params.scores.Perm [(a1, sa1), (a2, sa2), (b1, sb1), (b2, sb2)]) :
    (calculateHoleResult params).pointsResult.map Prod.fst = [a1, a2, b1, b2] ∧
    ((calculateHoleResult params).pointsResult.map Prod.snd).sum = 0 := by
  rcases Nat.lt_trichotomy
    (finalTeamScore params.scores (a1, a2) (b1, b2))
    (finalTeamScore params.scores (b1, b2) (a1, a2)) with hlt | heq | hgt
  · have houtcome : holeOutcome params.scores params.teamA_Ids params.teamB_Ids =
        (finalTeamScore params.scores (b1, b2) (a1, a2) -
          finalTeamScore params.scores (a1, a2) (b1, b2),
         some ((a1, a2), (b1, b2))) := by
      rw [hA, hB]
      simp only [holeOutcome]
      rw [if_pos hlt]
    rw [calculateHoleResult_pointsResult, houtcome, hA, hB]
    simp only [Option.isNone_some]
    rw [mkPointsResult_winA a1 a2 b1 b2 _ h12 h13 h14 h23 h24 h34]
    constructor
    · simp
    · simp only [List.map_cons, List.map_nil, List.sum_cons, List.sum_nil]
      ring
  · have houtcome : holeOutcome params.scores params.teamA_Ids params.teamB_Ids =
        (0, none) := by
      rw [hA, hB]
      simp only [holeOutcome]
      rw [if_neg (by omega), if_neg (by omega)]
    rw [calculateHoleResult_pointsResult, houtcome, hA, hB]
    simp only [Option.isNone_none]
    rw [mkPointsResult_draw a1 a2 b1 b2 _ _ h12 h13 h14 h23 h24 h34]
    constructor
    · simp
    · simp
  · have houtcome : holeOutcome params.scores params.teamA_Ids params.teamB_Ids =
        (finalTeamScore params.scores (a1, a2) (b1, b2) -
          finalTeamScore params.scores (b1, b2) (a1, a2),
         some ((b1, b2), (a1, a2))) := by
      rw [hA, hB]
      simp only [holeOutcome]
      rw [if_neg (by omega), if_pos hgt]
    rw [calculateHoleResult_pointsResult, houtcome, hA, hB]
    simp only [Option.isNone_some]
    rw [mkPointsResult_winB a1 a2 b1 b2 _ h12 h13 h14 h23 h24 h34]
    constructor
    · simp
    · simp only [List.map_cons, List.map_nil, List.sum_cons, List.sum_nil]
      ring

/-- Witness for C2 on the concrete hole A:(4,5) vs B:(5,6). -/
theorem holeResult_zero_sum_witness :
    (calculateHoleResult exParamsAWin).pointsResult.map Prod.fst =
      ["p1", "p2", "p3", "p4"] ∧
    ((calculateHoleResult exParamsAWin).pointsResult.map Prod.snd).sum = 0 :=
  holeResult_zero_sum exParamsAWin "p1" "p2" "p3" "p4"
    ⟨4, false, 0⟩ ⟨5, false, 0⟩ ⟨5, false, 0⟩ ⟨6, false, 0⟩
    rfl rfl (by decide) (by decide) (by decide) (by decide) (by decide) (by decide)
    (by decide)

/-- C3: each team's raw score concatenates `min·10 + max` of its members'
strokes, digits are reversed exactly when the opposing team has a birdie (so
with both teams birdieing both scores flip), the strictly lower final score
wins, and equal final scores give a draw. -/
theorem holeResult_teamScores_and_winner (params : CalculateHoleResultParams)
    (a1 a2 b1 b2 : PlayerId) (sa1 sa2 sb1 sb2 : ScoreInput)
    (hA : params.teamA_Ids = (a1, a2)) (hB : params.teamB_Ids = (b1, b2))
    (h12 : a1 ≠ a2) (h13 : a1 ≠ b1) (h14 : a1 ≠ b2)
    (h23 : a2 ≠ b1) (h24 : a2 ≠ b2) (h34 : b1 ≠ b2)
    (hperm : params.scores.Perm [(a1, sa1), (a2, sa2), (b1, sb1), (b2, sb2)]) :
    finalTeamScore params.scores (a1, a2) (b1, b2) =
      (if sb1.isBirdie || sb2.isBirdie
        then max sa1.score sa2.score * 10 + min sa1.score sa2.score
        else min sa1.score sa2.score * 10 + max sa1.score sa2.score) ∧
    finalTeamScore params.scores (b1, b2) (a1, a2) =
      (if sa1.isBirdie || sa2.isBirdie
        then max sb1.score sb2.score * 10 + min sb1.score sb2.score
        else min sb1.score sb2.score * 10 + max sb1.score sb2.score) ∧
    ((calculateHoleResult params).isDraw = true ↔
      finalTeamScore params.scores (a1, a2) (b1, b2) =
        finalTeamScore params.scores (b1, b2) (a1, a2)) ∧
    (finalTeamScore params.scores (a1, a2) (b1, b2) <
        finalTeamScore params.scores (b1, b2) (a1, a2) →
      (holeOutcome params.scores params.teamA_Ids params.teamB_Ids).2 =
        some ((a1, a2), (b1, b2))) ∧
    (finalTeamScore params.scores (b1, b2) (a1, a2) <
        finalTeamScore params.scores (a1, a2) (b1, b2) →
      (holeOutcome params.scores params.teamA_Ids params.teamB_Ids).2 =
        some ((b1, b2), (a1, a2))) := by
  obtain ⟨g1, g2, g3, g4, hpush, hbird⟩ :=
    scores_foursome params.scores a1 a2 b1 b2 sa1 sa2 sb1 sb2
      h12 h13 h14 h23 h24 h34 hperm
  refine ⟨?_, ?_, ?_, ?_, ?_⟩
  · simp [finalTeamScore, getRawTeamScore, hasBirdie, g1, g2, g3, g4]
  · simp [finalTeamScore, getRawTeamScore, hasBirdie, g1, g2, g3, g4]
  · rw [calculateHoleResult_isDraw, hA, hB]
    simp only [holeOutcome]
    rcases Nat.lt_trichotomy
      (finalTeamScore params.scores (a1, a2) (b1, b2))
      (finalTeamScore params.scores (b1, b2) (a1, a2)) with hlt | heq | hgt
    · rw [if_pos hlt]
      simp only [Option.isNone_some]
      constructor
      · intro hfalse
        exact absurd hfalse (by simp)
      · intro heq2
        omega
    · rw [if_neg (by omega), if_neg (by omega)]
      simp only [Option.isNone_none]
      constructor
      · intro _
        exact heq
      · intro _
        trivial
    · rw [if_neg (by omega), if_pos hgt]
      simp only [Option.isNone_some]
      constructor
      · intro hfalse
        exact absurd hfalse (by simp)
      · intro heq2
        omega
  · intro hlt
    rw [hA, hB]
    simp only [holeOutcome]
    rw [if_pos hlt]
  · intro hgt
    rw [hA, hB]
    simp only [holeOutcome]
    rw [if_neg (by omega), if_pos hgt]

/-- Witness for C3 on the concrete hole A:(4,5) vs B:(5,6). -/
theorem holeResult_teamScores_and_winner_witness :
    finalTeamScore exParamsAWin.scores ("p1", "p2") ("p3", "p4") = 45 ∧
    finalTeamScore exParamsAWin.scores ("p3", "p4") ("p1", "p2") = 56 ∧
    (holeOutcome exParamsAWin.scores exParamsAWin.teamA_Ids
      exParamsAWin.teamB_Ids).2 = some (("p1", "p2"), ("p3", "p4")) := by
  have h := holeResult_teamScores_and_winner exParamsAWin "p1" "p2" "p3" "p4"
    ⟨4, false, 0⟩ ⟨5, false, 0⟩ ⟨5, false, 0⟩ ⟨6, false, 0⟩
    rfl rfl (by decide) (by decide) (by decide) (by decide) (by decide) (by decide)
    (by decide)
  refine ⟨?_, ?_, h.2.2.2.1 (by decide)⟩
  · rw [h.1]
    decide
  · rw [h.2.1]
    decide

/-- Witness for C4: two consecutive draws starting from multiplier 2 yield
multiplier 4. -/
theorem carryOver_escalation_witness :
    threadMultiplier 2 [exSetupDraw, exSetupDraw] = 4 := by
  have h := carryOver_escalation exParamsAWin [exSetupDraw, exSetupDraw] 2
    (by decide) (by decide) (by decide)
  rw [h.2.1]
  rfl

/-- Witness for C8: completing hole 18 finishes the game; completing hole 5
advances the cursor to hole 6. -/
theorem completeHole_finish_transition_witness :
    (completeHole exState exInput18).gameStatus = GameStatus.finished ∧
    (completeHole exState exInput5).currentHole = 6 :=
  ⟨((completeHole_finish_transition exState exInput18).1 rfl).1,
   ((completeHole_finish_transition exState exInput5).2 (by decide) (by decide)).1⟩

/-- Unfolding lemma: the scores handed to the Hole Resolver by `completeHole`
are the forced-push-transformed submitted scores. -/
theorem resolvedResult_scores (s : GameState) (input : CompleteHoleInput) :
    (resolvedResult s input).scores =
      applyForcedPush s.players s.settings.maxPushCountPerHalf
        input.holeNumber input.scores := rfl

/-- The forced-push loop leaves keys of players other than the given ones
unchanged. -/
theorem lookupKey_foldl_forcePush_of_ne (players : List Player)
    (maxPush hole : Nat) (sc : Scores) (pid : PlayerId)
    (hne : ∀ q ∈ players, q.id ≠ pid) :
    lookupKey (players.foldl (forcePushStep maxPush hole) sc) pid =
      lookupKey sc pid := by
  revert hne
  induction players generalizing sc with
  | nil => intro hne; rfl
  | cons q t ih =>
    intro hne
    rw [List.foldl_cons, ih _ (fun x hx => hne x (List.mem_cons_of_mem q hx))]
    rw [forcePushStep]
    split
    · exact lookupKey_setKey_ne _ _ _ _
        (fun hx => hne q (List.mem_cons_self q t) hx.symm)
    · rfl

/-- The forced-push loop, over a duplicate-free roster, rewrites each member's
entry to the full remaining quota when there is one. -/
theorem lookupKey_foldl_forcePush_of_mem (players : List Player)
    (maxPush hole : Nat) (sc : Scores) (p : Player)
    (hmem : p ∈ players) (hnd : (players.map Player.id).Nodup) :
    lookupKey (players.foldl (forcePushStep maxPush hole) sc) p.id =
      (if 0 < maxPush - usedInHalf hole p
        then some { getScore sc p.id with
          pushCount := maxPush - usedInHalf hole p }
        else lookupKey sc p.id) := by
  revert hmem hnd
  induction players generalizing sc with
  | nil =>
    intro hmem hnd
    exact absurd hmem (by simp)
  | cons q t ih =>
    intro hmem hnd
    rw [List.map_cons] at hnd
    rcases List.mem_cons.mp hmem with heq | hpt
    · subst heq
      rw [List.foldl_cons]
      have hnotin : ∀ x ∈ t, x.id ≠ p.id := by
        intro x hx hxe
        have hmm : p.id ∈ t.map Player.id := by
          rw [← hxe]
          exact List.mem_map_of_mem _ hx
        exact (List.nodup_cons.mp hnd).1 hmm
      rw [lookupKey_foldl_forcePush_of_ne t maxPush hole _ p.id hnotin]
      rw [forcePushStep]
      split
      · rw [lookupKey_setKey_self]
      · rfl
    · rw [List.foldl_cons]
      have hqp : q.id ≠ p.id := by
        intro hxe
        have hmm : p.id ∈ t.map Player.id := List.mem_map_of_mem _ hpt
        rw [← hxe] at hmm
        exact (List.nodup_cons.mp hnd).1 hmm
      have hlk : lookupKey (forcePushStep maxPush hole sc q) p.id =
          lookupKey sc p.id := by
        rw [forcePushStep]
        split
        · exact lookupKey_setKey_ne _ _ _ _ (Ne.symm hqp)
        · rfl
      rw [ih (forcePushStep maxPush hole sc q) hpt (List.nodup_cons.mp hnd).2]
      simp only [getScore, hlk]

/-- C5: when completing hole 9 or 18, every player whose recorded usage in
that half is strictly below the per-half limit has the pushCount handed to the
Hole Resolver overridden to the full remaining quota, regardless of the
submitted value; on every other hole the submitted scores reach the resolver
unchanged. -/
theorem completeHole_forcedPush (s : GameState) (input : CompleteHoleInput) :
    ((input.holeNumber = 9 ∨ input.holeNumber = 18) →
      (s.players.map Player.id).Nodup →
      ∀ p ∈ s.players,
        usedInHalf input.holeNumber p < s.settings.maxPushCountPerHalf →
        lookupKey (resolvedResult s input).scores p.id =
          some { getScore input.scores p.id with
            pushCount := s.settings.maxPushCountPerHalf -
              usedInHalf input.holeNumber p }) ∧
    (input.holeNumber ≠ 9 → input.holeNumber ≠ 18 →
      (resolvedResult s input).scores = input.scores) := by
  constructor
  · intro h918 hnd p hp hlt
    rw [resolvedResult_scores, applyForcedPush, if_pos h918]
    rw [lookupKey_foldl_forcePush_of_mem s.players _ _ input.scores p hp hnd]
    rw [if_pos (by omega)]
  · intro h9 h18
    rw [resolvedResult_scores, applyForcedPush, if_neg (by omega)]

/-- Witness for C5: in a round where player p1 has used one of two pushes in
the front nine, completing hole 9 forces p1's pushCount to 1; completing hole
5 leaves the submitted scores unchanged. -/
theorem completeHole_forcedPush_witness :
    lookupKey (resolvedResult exState exInput9).scores "p1" =
      some ⟨4, false, 1⟩ ∧
    (resolvedResult exState exInput5).scores = exInput5.scores := by
  constructor
  · have h := (completeHole_forcedPush exState exInput9).1 (Or.inl rfl)
      (by decide) ⟨"p1", "Player A", ⟨1, 0⟩⟩ (by decide) (by decide)
    rw [h]
    decide
  · exact (completeHole_forcedPush exState exInput5).2 (by decide) (by decide)

/-- Push-usage bookkeeping never changes a player's id. -/
theorem updatePlayerUsage_id (sc : Scores) (hole : Nat) (p : Player) :
    (updatePlayerUsage sc hole p).id = p.id := by
  rw [updatePlayerUsage]
  split <;> rfl

/-- Unfolding lemma: the roster after `completeHole` is the bookkeeping map
over the old roster. -/
theorem completeHole_players (s : GameState) (input : CompleteHoleInput) :
    (completeHole s input).players =
      s.players.map (updatePlayerUsage
        (applyForcedPush s.players s.settings.maxPushCountPerHalf
          input.holeNumber input.scores)
        input.holeNumber) := rfl

/-- Unfolding lemma: `completeHole` leaves the settings unchanged. -/
theorem completeHole_settings (s : GameState) (input : CompleteHoleInput) :
    (completeHole s input).settings = s.settings := rfl

/-- The action `completeHole` preserves the list of player ids. -/
theorem completeHole_ids (s : GameState) (input : CompleteHoleInput) :
    (completeHole s input).players.map Player.id = s.players.map Player.id := by
  rw [completeHole_players, List.map_map]
  exact List.map_congr_left (fun p _ => updatePlayerUsage_id _ _ p)

/-- The effective push count after the forced-push transform still fits the
player's remaining quota. -/
theorem effectivePush_forced_le (s : GameState) (input : CompleteHoleInput)
    (p : Player) (hmem : p ∈ s.players)
    (hnd : (s.players.map Player.id).Nodup)
    (hvalid : effectivePush input.scores p.id ≤
      s.settings.maxPushCountPerHalf - halfUsage input.holeNumber p) :
    effectivePush (applyForcedPush s.players s.settings.maxPushCountPerHalf
        input.holeNumber input.scores) p.id ≤
      s.settings.maxPushCountPerHalf - halfUsage input.holeNumber p := by
  rw [applyForcedPush]
  split
  · rw [effectivePush,
      lookupKey_foldl_forcePush_of_mem s.players _ _ input.scores p hmem hnd]
    split
    · simp only [Option.map_some, Option.getD_some]
      rcases (by assumption : input.holeNumber = 9 ∨ input.holeNumber = 18) with h9 | h18
      · simp [h9, usedInHalf, halfUsage]
      · simp [h18, usedInHalf, halfUsage]
    · exact hvalid
  · exact hvalid

/-- Counter arithmetic of the bookkeeping step: the half counter of the
hole's half grows by the effective push count, the other half is untouched. -/
theorem updatePlayerUsage_counters (sc : Scores) (hole : Nat) (p : Player) :
    (updatePlayerUsage sc hole p).pushUsageCount.front9 =
      p.pushUsageCount.front9 +
        (if hole ≤ 9 then effectivePush sc p.id else 0) ∧
    (updatePlayerUsage sc hole p).pushUsageCount.back9 =
      p.pushUsageCount.back9 +
        (if 9 < hole then effectivePush sc p.id else 0) := by
  by_cases heff : 0 < effectivePush sc p.id
  · by_cases h9 : hole ≤ 9
    · simp [updatePlayerUsage, heff, h9, Nat.lt_irrefl, Nat.not_lt.mpr h9]
    · simp [updatePlayerUsage, heff, h9, Nat.lt_of_not_le h9]
  · have he0 : effectivePush sc p.id = 0 := by omega
    simp [updatePlayerUsage, he0]

/-- A single valid `completeHole` call keeps every counter within the
per-half limit. -/
theorem completeHole_within_step (s : GameState) (input : CompleteHoleInput)
    (hnd : (s.players.map Player.id).Nodup)
    (hv : validStep s input = true)
    (hinv : playersWithinLimit s = true) :
    playersWithinLimit (completeHole s input) = true := by
  rw [playersWithinLimit, completeHole_settings, completeHole_players,
    List.all_map, List.all_eq_true]
  rw [playersWithinLimit, List.all_eq_true] at hinv
  rw [validStep, List.all_eq_true] at hv
  intro p hp
  have hb := hinv p hp
  have hvp := hv p hp
  simp only [Bool.and_eq_true, decide_eq_true_eq] at hb hvp
  have heff := effectivePush_forced_le s input p hp hnd hvp
  simp only [Function.comp_apply, Bool.and_eq_true, decide_eq_true_eq]
  obtain ⟨hfeq, hbeq⟩ := updatePlayerUsage_counters
    (applyForcedPush s.players s.settings.maxPushCountPerHalf
      input.holeNumber input.scores) input.holeNumber p
  rw [hfeq, hbeq, halfUsage] at *
  by_cases h9 : input.holeNumber ≤ 9
  · rw [if_pos h9] at heff
    exact ⟨by rw [if_pos h9]; omega, by rw [if_neg (by omega)]; omega⟩
  · rw [if_neg h9] at heff
    exact ⟨by rw [if_neg h9]; omega, by rw [if_pos (by omega)]; omega⟩

/-- Roster comparison `playersMonotone` is reflexive. -/
theorem playersMonotone_refl (ps : List Player) :
    playersMonotone ps ps = true := by
  induction ps with
  | nil => rfl
  | cons p t ih => simp [playersMonotone, ih]

/-- The bookkeeping map only ever increases counters. -/
theorem playersMonotone_map_update (ps : List Player) (sc : Scores)
    (hole : Nat) :
    playersMonotone ps (ps.map (updatePlayerUsage sc hole)) = true := by
  induction ps with
  | nil => rfl
  | cons p t ih =>
    rw [List.map_cons, playersMonotone]
    have hid : (updatePlayerUsage sc hole p).id = p.id :=
      updatePlayerUsage_id sc hole p
    have hf : p.pushUsageCount.front9 ≤
        (updatePlayerUsage sc hole p).pushUsageCount.front9 := by
      rw [(updatePlayerUsage_counters sc hole p).1]
      split <;> omega
    have hb : p.pushUsageCount.back9 ≤
        (updatePlayerUsage sc hole p).pushUsageCount.back9 := by
      rw [(updatePlayerUsage_counters sc hole p).2]
      split <;> omega
    simp [hid, hf, hb, ih]

/-- Roster comparison `playersMonotone` is transitive. -/
theorem playersMonotone_trans (ps qs rs : List Player)
    (h1 : playersMonotone ps qs = true) (h2 : playersMonotone qs rs = true) :
    playersMonotone ps rs = true := by
  induction ps generalizing qs rs with
  | nil =>
    cases qs with
    | nil =>
      cases rs with
      | nil => rfl
      | cons r rt => exact absurd h2 (by simp [playersMonotone])
    | cons q qt => exact absurd h1 (by simp [playersMonotone])
  | cons p pt ih =>
    cases qs with
    | nil => exact absurd h1 (by simp [playersMonotone])
    | cons q qt =>
      cases rs with
      | nil => exact absurd h2 (by simp [playersMonotone])
      | cons r rt =>
        rw [playersMonotone] at h1 h2 ⊢
        simp only [Bool.and_eq_true, decide_eq_true_eq] at h1 h2 ⊢
        exact ⟨⟨⟨h1.1.1.1.trans h2.1.1.1, le_trans h1.1.1.2 h2.1.1.2⟩,
          le_trans h1.1.2 h2.1.2⟩, ih qt rt h1.2 h2.2⟩

/-- Invariant and monotonicity across a valid sequence of calls. -/
theorem runHoles_invariant (inputs : List CompleteHoleInput) (s : GameState)
    (hnd : (s.players.map Player.id).Nodup)
    (hvalid : validSeq s inputs = true)
    (hinv : playersWithinLimit s = true) :
    playersWithinLimit (runHoles s inputs) = true ∧
    playersMonotone s.players (runHoles s inputs).players = true := by
  induction inputs generalizing s with
  | nil => exact ⟨hinv, playersMonotone_refl s.players⟩
  | cons i rest ih =>
    rw [validSeq, Bool.and_eq_true] at hvalid
    have hstep := completeHole_within_step s i hnd hvalid.1 hinv
    have hnd2 : ((completeHole s i).players.map Player.id).Nodup := by
      rw [completeHole_ids]
      exact hnd
    obtain ⟨ih1, ih2⟩ := ih (completeHole s i) hnd2 hvalid.2 hstep
    refine ⟨ih1, playersMonotone_trans _ _ _ ?_ ih2⟩
    rw [completeHole_players]
    exact playersMonotone_map_update s.players _ _

/-- Each call increments exactly the half counter of the hole's half by the
effective post-override push count. -/
theorem completeHole_increment (s : GameState) (input : CompleteHoleInput)
    (p : Player) (hp : p ∈ s.players) :
    ∃ q ∈ (completeHole s input).players, q.id = p.id ∧
      q.pushUsageCount.front9 = p.pushUsageCount.front9 +
        (if input.holeNumber ≤ 9
          then effectivePush (applyForcedPush s.players
            s.settings.maxPushCountPerHalf input.holeNumber input.scores) p.id
          else 0) ∧
      q.pushUsageCount.back9 = p.pushUsageCount.back9 +
        (if 9 < input.holeNumber
          then effectivePush (applyForcedPush s.players
            s.settings.maxPushCountPerHalf input.holeNumber input.scores) p.id
          else 0) := by
  refine ⟨updatePlayerUsage
    (applyForcedPush s.players s.settings.maxPushCountPerHalf
      input.holeNumber input.scores) input.holeNumber p, ?_, ?_, ?_, ?_⟩
  · rw [completeHole_players]
    exact List.mem_map_of_mem _ hp
  · exact updatePlayerUsage_id _ _ p
  · exact (updatePlayerUsage_counters _ input.holeNumber p).1
  · exact (updatePlayerUsage_counters _ input.holeNumber p).2

/-- C6: from any roster within the per-half limit (in particular a fresh
round) and any sequence of calls whose submitted push counts fit the remaining
quotas, no counter ever exceeds `maxPushCountPerHalf`; counters never
decrease, and each call adds the effective post-override push count to the
half counter of the hole's half. -/
theorem pushUsage_never_exceeds (s : GameState)
    (inputs : List CompleteHoleInput)
    (hnd : (s.players.map Player.id).Nodup)
    (hvalid : validSeq s inputs = true)
    (hinv : playersWithinLimit s = true) :
    playersWithinLimit (runHoles s inputs) = true ∧
    playersMonotone s.players (runHoles s inputs).players = true ∧
    (∀ (inp : CompleteHoleInput) (p : Player), p ∈ s.players →
      ∃ q ∈ (completeHole s inp).players, q.id = p.id ∧
        q.pushUsageCount.front9 = p.pushUsageCount.front9 +
          (if inp.holeNumber ≤ 9
            then effectivePush (applyForcedPush s.players
              s.settings.maxPushCountPerHalf inp.holeNumber inp.scores) p.id
            else 0) ∧
        q.pushUsageCount.back9 = p.pushUsageCount.back9 +
          (if 9 < inp.holeNumber
            then effectivePush (applyForcedPush s.players
              s.settings.maxPushCountPerHalf inp.holeNumber inp.scores) p.id
            else 0)) := by
  obtain ⟨h1, h2⟩ := runHoles_invariant inputs s hnd hvalid hinv
  exact ⟨h1, h2, fun inp p hp => completeHole_increment s inp p hp⟩

/-- Witness for C6: one valid hole-9 call from a partially used roster keeps
every counter within the limit. -/
theorem pushUsage_never_exceeds_witness :
    playersWithinLimit (runHoles exState [exInput9]) = true ∧
    playersMonotone exState.players (runHoles exState [exInput9]).players = true := by
  have h := pushUsage_never_exceeds exState [exInput9]
    (by decide) (by decide) (by decide)
  exact ⟨h.1, h.2.1⟩

/-- Replacing an element of a sorted-by-holeNumber list by one with the same
hole number keeps it sorted. -/
theorem pairwise_holeNumber_set (l : List HoleResult) (j : Nat) (r : HoleResult)
    (hj : j < l.length) (hkey : r.holeNumber = (l.get ⟨j, hj⟩).holeNumber)
    (hp : List.Pairwise (fun a b => a.holeNumber ≤ b.holeNumber) l) :
    List.Pairwise (fun a b => a.holeNumber ≤ b.holeNumber) (l.set j r) := by
  rw [List.get_eq_getElem] at hkey
  rw [List.pairwise_iff_getElem] at hp ⊢
  intro i k hi hk hik
  rw [List.length_set] at hi hk
  rw [List.getElem_set, List.getElem_set]
  by_cases hji : j = i
  · by_cases hjk : j = k
    · exact absurd hik (by omega)
    · rw [if_pos hji, if_neg hjk]
      rw [hkey]
      exact hp j k hj hk (by omega)
  · by_cases hjk : j = k
    · rw [if_neg hji, if_pos hjk]
      rw [hkey]
      exact hp i j hi hj (by omega)
    · rw [if_neg hji, if_neg hjk]
      exact hp i k hi hk hik

/-- C7: completing a hole whose number is already in history replaces exactly
that entry with the newly computed result, leaving every other entry
byte-for-byte unchanged (no cascading recomputation); and whether the call
replaces or appends, a history sorted ascending by hole number stays sorted. -/
theorem completeHole_history_edit (s : GameState) (input : CompleteHoleInput) :
    (∀ j, s.history.findIdx?
        (fun h => decide (h.holeNumber = input.holeNumber)) = some j →
      (completeHole s input).history =
        s.history.set j (resolvedResult s input) ∧
      ∀ k, k ≠ j → (completeHole s input).history[k]? = s.history[k]?) ∧
    (List.Pairwise (fun a b => a.holeNumber ≤ b.holeNumber) s.history →
      List.Pairwise (fun a b => a.holeNumber ≤ b.holeNumber)
        (completeHole s input).history) := by
  constructor
  · intro j hj
    have hhist : (completeHole s input).history =
        s.history.set j (resolvedResult s input) := by
      simp only [completeHole]
      rw [hj]
    refine ⟨hhist, fun k hk => ?_⟩
    rw [hhist]
    exact List.getElem?_set_ne (fun hx => hk hx.symm)
  · intro hsorted
    cases hidx : s.history.findIdx?
        (fun h => decide (h.holeNumber = input.holeNumber)) with
    | none =>
      have hhist : (completeHole s input).history =
          (s.history ++ [resolvedResult s input]).mergeSort
            (fun a b => a.holeNumber ≤ b.holeNumber) := by
        simp only [completeHole]
        rw [hidx]
      rw [hhist]
      have hs := @List.sorted_mergeSort HoleResult
        (fun a b : HoleResult => decide (a.holeNumber ≤ b.holeNumber))
        (fun a b c h1 h2 => by
          simp only [decide_eq_true_eq] at *
          omega)
        (fun a b => by
          rcases Nat.le_total a.holeNumber b.holeNumber with h | h <;> simp [h])
        (s.history ++ [resolvedResult s input])
      exact hs.imp (fun h => by simpa using h)
    | some j =>
      have hhist : (completeHole s input).history =
          s.history.set j (resolvedResult s input) := by
        simp only [completeHole]
        rw [hidx]
      rw [hhist]
      obtain ⟨hjlen, hpj, hmin⟩ := List.findIdx?_eq_some_iff_getElem.mp hidx
      have hkey : (resolvedResult s input).holeNumber =
          (s.history.get ⟨j, hjlen⟩).holeNumber := by
        rw [List.get_eq_getElem]
        have : s.history[j].holeNumber = input.holeNumber := by
          simpa using hpj
        rw [this]
        rfl
      exact pairwise_holeNumber_set s.history j (resolvedResult s input)
        hjlen hkey hsorted

/-- Witness for C7: editing hole 1 of a one-entry history replaces that entry
and keeps the history sorted. -/
theorem completeHole_history_edit_witness :
    (completeHole exStateH exInput1).history =
      exStateH.history.set 0 (resolvedResult exStateH exInput1) ∧
    List.Pairwise (fun a b => a.holeNumber ≤ b.holeNumber)
      (completeHole exStateH exInput1).history := by
  have h := completeHole_history_edit exStateH exInput1
  exact ⟨(h.1 0 (by decide)).1, h.2 (List.pairwise_singleton _ _)⟩

end GolfVegas
